import Mathlib

/-!
Shallow embedding of `src/bmlite/SPM/dae.py` (the SPM residual assembler
`residuals` and the `bandwidth` Jacobian analyzer).

Modelling conventions:
* Python floats are modelled as exact rationals (`ℚ`).
* Numpy 1-D arrays that are indexed through the simulation's index maps are
  modelled as total functions `ℕ → ℚ`; the per-electrode radial mesh arrays
  (`r`, `rm`, `rp`) and the flux vectors are modelled as `List ℚ`.
* External functions that live outside `src/` — `numpy.exp`, the physical
  constants `Constants().F` and `Constants().R`, the finite-volume helpers
  `bmlite.math.grad_r` and `bmlite.math.div_r`, and the per-electrode
  material models `get_Eeq`, `get_i0`, `get_Ds` — are opaque parameters of
  the embedding (fields of `Env` / `Electrode`).  Every theorem below is
  proved for all values of these parameters, hence in particular for the
  actual ones.
* In-place writes into the residual buffer `res` become functional updates;
  the write order of the Python code is preserved (the last write wins on
  any index collision).
* Setting `exp['events']` becomes an explicit `Events` component of the
  returned `ResOut`, and the optional diagnostics return value becomes the
  `ret : Option (ℚ × ℚ)` component.
-/

namespace BMLite

/-- Physical constants object `bmlite.Constants()` (defined outside `src/`);
`F` is Faraday's constant and `R` the gas constant, kept opaque. -/
structure Constants where
  F : ℚ
  R : ℚ

/-- Battery-level parameters read by `residuals`: `bat.temp`, `bat.area`,
`bat.cap`. -/
structure Battery where
  temp : ℚ
  area : ℚ
  cap : ℚ

/-- Electrolyte domain: reference concentration `el.Li_0` and the index
`el.ptr['phi_el']` of the electrolyte-potential row. -/
structure Electrolyte where
  Li_0 : ℚ
  ptr_phi_el : ℕ

/-- Electrode domain (anode or cathode).  `ptr_phi_ed` is `ed.ptr['phi_ed']`;
the radial slice `ed.r_ptr['Li_ed']` is modelled as the contiguous index
range `[rptr_Li, rptr_Li + nr)`.  `r`, `rm`, `rp` are the radial node /
control-volume face positions (length `nr` each in the source), and
`get_Eeq`, `get_i0`, `get_Ds` are the opaque material models. -/
structure Electrode where
  ptr_phi_ed : ℕ
  rptr_Li : ℕ
  nr : ℕ
  Li_max : ℚ
  alpha_a : ℚ
  alpha_c : ℚ
  A_s : ℚ
  thick : ℚ
  r : List ℚ
  rm : List ℚ
  rp : List ℚ
  get_Eeq : ℚ → ℚ → ℚ
  get_i0 : ℚ → ℚ → ℚ → ℚ
  get_Ds : ℚ → ℚ → ℚ

/-- The SPM `Simulation` object as read by `residuals` and `bandwidth`:
domains, start-time offset `_t0`, the `_flags['post']` diagnostics flag, and
the stored initial vectors `_sv0`, `_svdot0` of size `N`. -/
structure Simulation where
  bat : Battery
  el : Electrolyte
  an : Electrode
  ca : Electrode
  t0 : ℚ
  flags_post : Bool
  sv0 : ℕ → ℚ
  svdot0 : ℕ → ℚ
  N : ℕ

/-- Experiment dictionary: `exp['mode']`, `exp['units']`, `exp['value']`. -/
structure Experiment where
  mode : String
  units : String
  value : ℚ → ℚ

/-- The events snapshot written into `exp['events']` (lines 254-262 of
`dae.py`); it has exactly these seven keys. -/
structure Events where
  time_s : ℚ
  time_min : ℚ
  time_h : ℚ
  current_A : ℚ
  current_C : ℚ
  voltage_V : ℚ
  power_W : ℚ
  deriving Repr, DecidableEq

/-- Environment of external functions used by `residuals`: `numpy.exp`
(`fexp`), the constants object, and the finite-volume helpers
`bmlite.math.grad_r` / `bmlite.math.div_r` whose definitions live outside
`src/` and are therefore kept opaque. -/
structure Env where
  c : Constants
  fexp : ℚ → ℚ
  grad_r : List ℚ → List ℚ → List ℚ
  div_r : List ℚ → List ℚ → List ℚ → List ℚ

/-- Result of one `residuals` call: the updated residual buffer, the events
snapshot stored into `exp['events']`, and the optional diagnostics return
value (`None`, or the pair `(sdot_an, sdot_ca)` when `sim._flags['post']`). -/
structure ResOut where
  res : ℕ → ℚ
  events : Events
  ret : Option (ℚ × ℚ)

/-- Functional update of a single residual row: `res[j] = v`. -/
def upd1 (res : ℕ → ℚ) (j : ℕ) (v : ℚ) : ℕ → ℚ :=
  fun i => if i = j then v else res i

/-- Functional update of the contiguous row range `[start, start+n)`:
`res[start:start+n] = [f 0, …, f (n-1)]`. -/
def updRange (res : ℕ → ℚ) (start n : ℕ) (f : ℕ → ℚ) : ℕ → ℚ :=
  fun i => if start ≤ i ∧ i < start + n then f (i - start) else res i

/-- The surface intercalation fraction `xs[-1]`: the value of the state
vector at the electrode's last radial node. -/
def surfFrac (sv : ℕ → ℚ) (ed : Electrode) : ℚ :=
  sv (ed.rptr_Li + (ed.nr - 1))

/-- The slice `xs = sv[ed.r_ptr['Li_ed']]` as a list of length `ed.nr`. -/
def xsList (sv : ℕ → ℚ) (ed : Electrode) : List ℚ :=
  (List.range ed.nr).map (fun i => sv (ed.rptr_Li + i))

/-- Butler–Volmer reaction rate of one electrode (dae.py lines 173-177 for
the anode, 197-201 for the cathode):
`eta = phi_ed - phi_el - get_Eeq(xs[-1], T)`,
`i0 = get_i0(xs[-1], el.Li_0, T)`,
`sdot = i0/F * (exp(alpha_a*F*eta/R/T) - exp(-alpha_c*F*eta/R/T))`. -/
def sdotOf (env : Env) (el : Electrolyte) (ed : Electrode) (T phi_ed phi_el : ℚ)
    (sv : ℕ → ℚ) : ℚ :=
  let eta := phi_ed - phi_el - ed.get_Eeq (surfFrac sv ed) T
  let i0 := ed.get_i0 (surfFrac sv ed) el.Li_0 T
  i0 / env.c.F * (  env.fexp ( ed.alpha_a * env.c.F * eta / env.c.R / T)
                  - env.fexp (-ed.alpha_c * env.c.F * eta / env.c.R / T)  )

/-- Face-weighted solid diffusivities (dae.py lines 180-183 / 204-207):
`wt_m = 0.5*(rp[:-1] - rm[:-1])/(r[1:] - r[:-1])`,
`wt_p = 0.5*(rp[1:] - rm[1:])/(r[1:] - r[:-1])`,
`Ds = wt_m*get_Ds(xs[:-1], T) + wt_p*get_Ds(xs[1:], T)`. -/
def DsOf (ed : Electrode) (T : ℚ) (xs : List ℚ) : List ℚ :=
  let dr := List.zipWith (fun a b => a - b) ed.r.tail ed.r.dropLast
  let wt_m := List.zipWith (fun x d => (1/2) * x / d)
      (List.zipWith (fun a b => a - b) ed.rp.dropLast ed.rm.dropLast) dr
  let wt_p := List.zipWith (fun x d => (1/2) * x / d)
      (List.zipWith (fun a b => a - b) ed.rp.tail ed.rm.tail) dr
  List.zipWith (· + ·)
    (List.zipWith (· * ·) wt_m (xs.dropLast.map (fun x => ed.get_Ds x T)))
    (List.zipWith (· * ·) wt_p (xs.tail.map (fun x => ed.get_Ds x T)))

/-- The radial flux vector (dae.py line 186 / 210):
`Js = concat([[0.], Ds*grad_r(r, xs*Li_max), [-sdot]])`. -/
def JsOf (env : Env) (ed : Electrode) (T : ℚ) (xs : List ℚ) (sdot : ℚ) : List ℚ :=
  let Li := xs.map (fun x => x * ed.Li_max)
  [0] ++ List.zipWith (· * ·) (DsOf ed T xs) (env.grad_r ed.r Li) ++ [-sdot]

/-- Row `k` of the solid-phase mass-conservation residual (dae.py lines
188-189 / 212-213): `Li_max*svdot[rptr+k] - div_r(rm, rp, Js)[k]`. -/
def massRes (env : Env) (ed : Electrode) (svdot : ℕ → ℚ) (Js : List ℚ)
    (k : ℕ) : ℚ :=
  ed.Li_max * svdot (ed.rptr_Li + k) - (env.div_r ed.rm ed.rp Js).getD k 0

/-- The residual buffer after the unconditional writes of `residuals`
(dae.py lines 170-213), before the boundary-condition branch: the anode
mass-conservation rows, the anode charge-conservation row
`res[an.ptr['phi_ed']] = phi_an - 0.`, and the cathode mass-conservation
rows, in source order. -/
def resPreBC (env : Env) (sv svdot res : ℕ → ℚ) (sim : Simulation) : ℕ → ℚ :=
  let T := sim.bat.temp
  let el := sim.el
  let an := sim.an
  let ca := sim.ca
  let phi_an := sv an.ptr_phi_ed
  let phi_el := sv el.ptr_phi_el
  let phi_ca := sv ca.ptr_phi_ed
  let sdot_an := sdotOf env el an T phi_an phi_el sv
  let Js_an := JsOf env an T (xsList sv an) sdot_an
  let res1 := updRange res an.rptr_Li an.nr (massRes env an svdot Js_an)
  let res2 := upd1 res1 an.ptr_phi_ed (phi_an - 0)
  let sdot_ca := sdotOf env el ca T phi_ca phi_el sv
  let Js_ca := JsOf env ca T (xsList sv ca) sdot_ca
  updRange res2 ca.rptr_Li ca.nr (massRes env ca svdot Js_ca)

/-- The DAE residual function `residuals(t, sv, svdot, res, (sim, exp))` of
`dae.py` (lines 103-266).  In-place mutation of `res` becomes the returned
`res` function; `exp['events']` becomes the returned `events`; the optional
diagnostics return becomes `ret`. -/
def residuals (env : Env) (t : ℚ) (sv svdot res : ℕ → ℚ) (sim : Simulation)
    (ex : Experiment) : ResOut :=
  let c := env.c
  let bat := sim.bat
  let el := sim.el
  let an := sim.an
  let ca := sim.ca
  let T := bat.temp
  let phi_an := sv an.ptr_phi_ed
  let phi_el := sv el.ptr_phi_el
  let phi_ca := sv ca.ptr_phi_ed
  let sdot_an := sdotOf env el an T phi_an phi_el sv
  let sdot_ca := sdotOf env el ca T phi_ca phi_el sv
  let res3 := resPreBC env sv svdot res sim
  let i_ext := -sdot_an * an.A_s * an.thick * c.F
  let value := ex.value
  let voltage_V := phi_ca
  let current_A := i_ext * bat.area
  let power_W := current_A * voltage_V
  let res4 :=
    if ex.mode = "current" ∧ ex.units = "A" then
      upd1 (upd1 res3 ca.ptr_phi_ed
              (sdot_ca * ca.A_s * ca.thick * c.F - value t / bat.area))
        el.ptr_phi_el
        (sdot_an * an.A_s * an.thick * c.F + value t / bat.area)
    else if ex.mode = "current" ∧ ex.units = "C" then
      upd1 (upd1 res3 ca.ptr_phi_ed
              (sdot_ca * ca.A_s * ca.thick * c.F - value t * bat.cap / bat.area))
        el.ptr_phi_el
        (sdot_an * an.A_s * an.thick * c.F + value t * bat.cap / bat.area)
    else if ex.mode = "voltage" then
      upd1 (upd1 res3 ca.ptr_phi_ed (voltage_V - value t))
        el.ptr_phi_el
        (sdot_an * an.A_s * an.thick + sdot_ca * ca.A_s * ca.thick)
    else if ex.mode = "power" then
      upd1 (upd1 res3 ca.ptr_phi_ed (power_W - value t))
        el.ptr_phi_el
        (sdot_an * an.A_s * an.thick + sdot_ca * ca.A_s * ca.thick)
    else res3
  let total_time := sim.t0 + t
  { res := res4
    events :=
      { time_s := total_time
        time_min := total_time / 60
        time_h := total_time / 3600
        current_A := current_A
        current_C := current_A / bat.cap
        voltage_V := voltage_V
        power_W := power_W }
    ret := if sim.flags_post then some (sdot_an, sdot_ca) else none }

/-- Finite-difference perturbation step of `bandwidth` (dae.py lines 65 and
76): `max(1e-6, 1e-6*x)` — note: no absolute value in the source. -/
def pert (x : ℚ) : ℚ :=
  max (1/1000000) (1/1000000 * x)

/-- The perturbed vector of `bandwidth`: a copy of `v` with component `j`
replaced by `v[j] + max(1e-6, 1e-6*v[j])` (dae.py lines 61-65 / 74-76). -/
def perturbed (v : ℕ → ℚ) (j : ℕ) : ℕ → ℚ :=
  fun i => if i = j then v j + pert (v j) else v i

/-- One iteration of the first probing loop of `bandwidth` (dae.py lines
60-69): perturb `sv[j]`, re-evaluate `residuals` at `t = 0` into the carried
buffer, and store the column `res_0 - res` as column `j` of `jac`. -/
def bwStep1 (env : Env) (sim : Simulation) (expr : Experiment)
    (sv svdot res_0 : ℕ → ℚ) (acc : (ℕ → ℚ) × (ℕ → ℕ → ℚ)) (j : ℕ) :
    (ℕ → ℚ) × (ℕ → ℕ → ℚ) :=
  let dsv := perturbed sv j
  let res := (residuals env 0 dsv svdot acc.1 sim expr).res
  let dres := fun i => res_0 i - res i
  (res, fun i jj => if jj = j then dres i else acc.2 i jj)

/-- One iteration of the second probing loop of `bandwidth` (dae.py lines
71-80): perturb `svdot[j]`, re-evaluate, and add the column `res_0 - res`
into column `j` of `jac`. -/
def bwStep2 (env : Env) (sim : Simulation) (expr : Experiment)
    (sv svdot res_0 : ℕ → ℚ) (acc : (ℕ → ℚ) × (ℕ → ℕ → ℚ)) (j : ℕ) :
    (ℕ → ℚ) × (ℕ → ℕ → ℚ) :=
  let dsvdot := perturbed svdot j
  let res := (residuals env 0 sv dsvdot acc.1 sim expr).res
  let dres := fun i => res_0 i - res i
  (res, fun i jj => if jj = j then acc.2 i jj + dres i else acc.2 i jj)

/-- Lower bandwidth extraction (dae.py lines 83-90): for each row `i`, the
candidate is `i - l_inds[0]` where `l_inds` are the columns `j < i` with
`|jac[i,j]| > 0`; `lband` is the running maximum starting from 0. -/
def lbandOf (jac : ℕ → ℕ → ℚ) (N : ℕ) : ℕ :=
  (List.range N).foldl (fun acc i =>
    match (List.range i).filter (fun j => decide (0 < |jac i j|)) with
    | [] => acc
    | j0 :: _ => if i - j0 > acc then i - j0 else acc) 0

/-- Upper bandwidth extraction (dae.py lines 84, 92-94): for each row `i`,
the candidate is `u_inds[-1] - i` where `u_inds` are the columns `j ≥ i`
with `|jac[i,j]| > 0`; `uband` is the running maximum starting from 0. -/
def ubandOf (jac : ℕ → ℕ → ℚ) (N : ℕ) : ℕ :=
  (List.range N).foldl (fun acc i =>
    match ((List.range N).filter (fun j => decide (i ≤ j ∧ 0 < |jac i j|))).getLast? with
    | none => acc
    | some jl => if jl - i > acc then jl - i else acc) 0

/-- Jacobian pattern (dae.py lines 97-98): ones exactly at the nonzero
entries of `jac`, zeros elsewhere. -/
def j_patOf (jac : ℕ → ℕ → ℚ) : ℕ → ℕ → ℚ :=
  fun i j => if jac i j ≠ 0 then 1 else 0

/-- The probed Jacobian built by `bandwidth` (dae.py lines 44-80): baseline
call of `residuals` at `t = 0` on `sim._sv0`, `sim._svdot0` with the fixed
internal experiment `{mode:'current', units:'C', value: t ↦ 0}` and a fresh
zero residual buffer, then the two perturbation loops threading the residual
buffer exactly as the source does. -/
def probedJac (env : Env) (sim : Simulation) : ℕ → ℕ → ℚ :=
  let expr : Experiment := { mode := "current", units := "C", value := fun _ => 0 }
  let sv := sim.sv0
  let svdot := sim.svdot0
  let res_0 := (residuals env 0 sv svdot (fun _ => 0) sim expr).res
  let p1 := (List.range sim.N).foldl (bwStep1 env sim expr sv svdot res_0)
      (res_0, fun _ _ => 0)
  let p2 := (List.range sim.N).foldl (bwStep2 env sim expr sv svdot res_0) p1
  p2.2

/-- The `bandwidth(sim)` function of `dae.py` (lines 14-100): numerically
probe the residual Jacobian and return `(lband, uband, j_pat)`. -/
def bandwidth (env : Env) (sim : Simulation) : ℕ × ℕ × (ℕ → ℕ → ℚ) :=
  let jac := probedJac env sim
  (lbandOf jac sim.N, ubandOf jac sim.N, j_patOf jac)

/-- The `bandwidth` algorithm generalized over the probing point: the same
computation as `bandwidth` but with the probing time, baseline state and
derivative vectors, and experiment taken as parameters instead of the fixed
internal choices of the source. -/
def bandwidthProbe (env : Env) (sim : Simulation) (t : ℚ) (sv svdot : ℕ → ℚ)
    (expr : Experiment) : ℕ × ℕ × (ℕ → ℕ → ℚ) :=
  let res_0 := (residuals env t sv svdot (fun _ => 0) sim expr).res
  let p1 := (List.range sim.N).foldl (bwStep1 env sim expr sv svdot res_0)
      (res_0, fun _ _ => 0)
  let p2 := (List.range sim.N).foldl (bwStep2 env sim expr sv svdot res_0) p1
  let jac := p2.2
  (lbandOf jac sim.N, ubandOf jac sim.N, j_patOf jac)

/-! ## Helper lemmas -/

/-- The last entry of a list of the shape `[x] ++ mid ++ [y]` is `y`. -/
lemma getLast_sandwich (x y : ℚ) (mid : List ℚ) :
    ([x] ++ mid ++ [y]).getLast? = some y := by
  have h := List.getLast?_concat (l := [x] ++ mid) (a := y)
  rwa [List.append_assoc] at h

/-- The residual-row indices written unconditionally by `residuals` before
the boundary-condition branch: the anode `Li_ed` slice, the anode `phi_ed`
row, and the cathode `Li_ed` slice. -/
def writtenPre (sim : Simulation) : List ℕ :=
  ((List.range sim.an.nr).map (fun k => sim.an.rptr_Li + k)) ++
    [sim.an.ptr_phi_ed] ++
    ((List.range sim.ca.nr).map (fun k => sim.ca.rptr_Li + k))

/-- All residual-row indices `residuals` may write: the unconditional rows
plus the two boundary-condition rows (cathode `phi_ed` and electrolyte
`phi_el`). -/
def writtenIdx (sim : Simulation) : List ℕ :=
  writtenPre sim ++ [sim.ca.ptr_phi_ed, sim.el.ptr_phi_el]

lemma upd1_in (res : ℕ → ℚ) (j : ℕ) (v : ℚ) : upd1 res j v j = v :=
  if_pos rfl

lemma upd1_out (res : ℕ → ℚ) (j : ℕ) (v : ℚ) (i : ℕ) (h : i ≠ j) :
    upd1 res j v i = res i :=
  if_neg h

lemma updRange_out (res : ℕ → ℚ) (start n : ℕ) (f : ℕ → ℚ) (i : ℕ)
    (h : ∀ k, k < n → i ≠ start + k) : updRange res start n f i = res i := by
  unfold updRange
  rw [if_neg]
  rintro ⟨h1, h2⟩
  exact h (i - start) (by omega) (by omega)

lemma not_mem_writtenPre (sim : Simulation) (i : ℕ) (h : i ∉ writtenPre sim) :
    (∀ k, k < sim.an.nr → i ≠ sim.an.rptr_Li + k) ∧ i ≠ sim.an.ptr_phi_ed ∧
      (∀ k, k < sim.ca.nr → i ≠ sim.ca.rptr_Li + k) := by
  refine ⟨fun k hk he => h ?_, fun he => h ?_, fun k hk he => h ?_⟩
  · exact List.mem_append_left _ (List.mem_append_left _
      (List.mem_map.mpr ⟨k, List.mem_range.mpr hk, he.symm⟩))
  · exact List.mem_append_left _ (List.mem_append_right _ (by simp [he]))
  · exact List.mem_append_right _
      (List.mem_map.mpr ⟨k, List.mem_range.mpr hk, he.symm⟩)

lemma resPreBC_out (env : Env) (sv svdot res : ℕ → ℚ) (sim : Simulation)
    (i : ℕ) (h : i ∉ writtenPre sim) :
    resPreBC env sv svdot res sim i = res i := by
  obtain ⟨h1, h2, h3⟩ := not_mem_writtenPre sim i h
  unfold resPreBC
  rw [updRange_out _ _ _ _ _ h3, upd1_out _ _ _ _ h2, updRange_out _ _ _ _ _ h1]

/-- Frame property of `residuals`: rows outside the written index set keep
the caller-supplied buffer values, in every boundary-condition branch. -/
lemma residuals_frame (env : Env) (t : ℚ) (sv svdot res : ℕ → ℚ)
    (sim : Simulation) (ex : Experiment) (i : ℕ) (h : i ∉ writtenIdx sim) :
    (residuals env t sv svdot res sim ex).res i = res i := by
  have hpre : i ∉ writtenPre sim := fun hc =>
    h (List.mem_append_left _ hc)
  have hca : i ≠ sim.ca.ptr_phi_ed := fun hc =>
    h (List.mem_append_right _ (by simp [hc]))
  have hel : i ≠ sim.el.ptr_phi_el := fun hc =>
    h (List.mem_append_right _ (by simp [hc]))
  unfold residuals
  dsimp only
  split_ifs <;>
    simp only [upd1_out _ _ _ _ hca, upd1_out _ _ _ _ hel,
      resPreBC_out _ _ _ _ _ _ hpre]

/-! ## Test fixture

A small concrete instantiation used to evaluate the embedding on explicit
inputs: one radial node per electrode, state layout
`[an.Li_ed, an.phi_ed, el.phi_el, ca.Li_ed, ca.phi_ed]`, simple material
models, and `F = 2` so that the Faraday factor is observable. -/

/-- Concrete environment: `F = 2`, `R = 1`, an affine stand-in for `exp`,
and trivial `grad_r`/`div_r`. -/
def envT : Env where
  c := { F := 2, R := 1 }
  fexp := fun x => x + 1
  grad_r := fun _ _ => []
  div_r := fun _ _ _ => []

/-- Concrete anode with a single radial node. -/
def anT : Electrode where
  ptr_phi_ed := 1
  rptr_Li := 0
  nr := 1
  Li_max := 1
  alpha_a := 1
  alpha_c := 1
  A_s := 1
  thick := 1
  r := [1]
  rm := [0]
  rp := [1]
  get_Eeq := fun _ _ => 0
  get_i0 := fun _ _ _ => 1
  get_Ds := fun _ _ => 0

/-- Concrete cathode: same as the anode but at its own indices. -/
def caT : Electrode :=
  { anT with ptr_phi_ed := 4, rptr_Li := 3 }

/-- Concrete simulation over the 5-row layout. -/
def simT : Simulation where
  bat := { temp := 1, area := 1, cap := 1 }
  el := { Li_0 := 1, ptr_phi_el := 2 }
  an := anT
  ca := caT
  t0 := 0
  flags_post := false
  sv0 := fun _ => 0
  svdot0 := fun _ => 0
  N := 5

/-- Concrete state vector: both electrode potentials 1, everything else 0. -/
def svT : ℕ → ℚ :=
  fun i => if i = 1 then 1 else if i = 4 then 1 else 0

/-- All-zero vector (used for `svdot` and the initial residual buffer). -/
def zeroV : ℕ → ℚ :=
  fun _ => 0

/-- Concrete voltage-mode experiment. -/
def exV : Experiment where
  mode := "voltage"
  units := ""
  value := fun _ => 0

/-- Concrete experiment with an unsupported `(mode, units)` combination. -/
def exU : Experiment where
  mode := "current"
  units := "mA"
  value := fun _ => 0

/-! ## Claims -/

/-- C1: for every call to `residuals`, the interfacial reaction rate of each
electrode (observable through the diagnostics return channel) equals
`i0/F * (exp(alpha_a*F*eta/(R*T)) - exp(-alpha_c*F*eta/(R*T)))` with
`eta = electrode potential - electrolyte potential - get_Eeq(surface
fraction, T)` and `i0 = get_i0(surface fraction, el.Li_0, T)`, the surface
intercalation fraction being the state value at the electrode's last radial
node. -/
theorem claim_C1 (env : Env) (t : ℚ) (sv svdot res : ℕ → ℚ) (sim : Simulation)
    (ex : Experiment) :
    (residuals env t sv svdot res { sim with flags_post := true } ex).ret =
      some
        (sim.an.get_i0 (sv (sim.an.rptr_Li + (sim.an.nr - 1))) sim.el.Li_0 sim.bat.temp
            / env.c.F *
          (  env.fexp ( sim.an.alpha_a * env.c.F *
                (sv sim.an.ptr_phi_ed - sv sim.el.ptr_phi_el -
                  sim.an.get_Eeq (sv (sim.an.rptr_Li + (sim.an.nr - 1))) sim.bat.temp)
                / env.c.R / sim.bat.temp)
           - env.fexp (-sim.an.alpha_c * env.c.F *
                (sv sim.an.ptr_phi_ed - sv sim.el.ptr_phi_el -
                  sim.an.get_Eeq (sv (sim.an.rptr_Li + (sim.an.nr - 1))) sim.bat.temp)
                / env.c.R / sim.bat.temp)),
         sim.ca.get_i0 (sv (sim.ca.rptr_Li + (sim.ca.nr - 1))) sim.el.Li_0 sim.bat.temp
            / env.c.F *
          (  env.fexp ( sim.ca.alpha_a * env.c.F *
                (sv sim.ca.ptr_phi_ed - sv sim.el.ptr_phi_el -
                  sim.ca.get_Eeq (sv (sim.ca.rptr_Li + (sim.ca.nr - 1))) sim.bat.temp)
                / env.c.R / sim.bat.temp)
           - env.fexp (-sim.ca.alpha_c * env.c.F *
                (sv sim.ca.ptr_phi_ed - sv sim.el.ptr_phi_el -
                  sim.ca.get_Eeq (sv (sim.ca.rptr_Li + (sim.ca.nr - 1))) sim.bat.temp)
                / env.c.R / sim.bat.temp))) := by
  unfold residuals sdotOf surfFrac
  dsimp only
  exact if_pos rfl

/-- C3: for every state, the radial flux vector of each electrode used in
the solid-phase mass-conservation residual has innermost (particle-center)
face value exactly 0 and outermost (particle-surface) face value equal to
the negative of that electrode's surface reaction rate. -/
theorem claim_C3 (env : Env) (sv : ℕ → ℚ) (sim : Simulation) :
    (JsOf env sim.an sim.bat.temp (xsList sv sim.an)
        (sdotOf env sim.el sim.an sim.bat.temp (sv sim.an.ptr_phi_ed)
          (sv sim.el.ptr_phi_el) sv)).head? = some 0 ∧
    (JsOf env sim.an sim.bat.temp (xsList sv sim.an)
        (sdotOf env sim.el sim.an sim.bat.temp (sv sim.an.ptr_phi_ed)
          (sv sim.el.ptr_phi_el) sv)).getLast? =
      some (-(sdotOf env sim.el sim.an sim.bat.temp (sv sim.an.ptr_phi_ed)
          (sv sim.el.ptr_phi_el) sv)) ∧
    (JsOf env sim.ca sim.bat.temp (xsList sv sim.ca)
        (sdotOf env sim.el sim.ca sim.bat.temp (sv sim.ca.ptr_phi_ed)
          (sv sim.el.ptr_phi_el) sv)).head? = some 0 ∧
    (JsOf env sim.ca sim.bat.temp (xsList sv sim.ca)
        (sdotOf env sim.el sim.ca sim.bat.temp (sv sim.ca.ptr_phi_ed)
          (sv sim.el.ptr_phi_el) sv)).getLast? =
      some (-(sdotOf env sim.el sim.ca sim.bat.temp (sv sim.ca.ptr_phi_ed)
          (sv sim.el.ptr_phi_el) sv)) :=
  ⟨rfl, getLast_sandwich _ _ _, rfl, getLast_sandwich _ _ _⟩

/-- C4: the two current-mode unit branches are observationally equivalent up
to scaling the applied value by the battery capacity: `residuals` with
`{mode:'current', units:'C', value:v}` produces exactly the same residual
buffer, events snapshot, and return as with
`{mode:'current', units:'A', value: t ↦ v(t)*bat.cap}`. -/
theorem claim_C4 (env : Env) (t : ℚ) (sv svdot res : ℕ → ℚ) (sim : Simulation)
    (v : ℚ → ℚ) :
    residuals env t sv svdot res sim { mode := "current", units := "C", value := v } =
      residuals env t sv svdot res sim
        { mode := "current", units := "A", value := fun s => v s * sim.bat.cap } := by
  unfold residuals
  simp only [String.reduceEq, and_true, and_false, if_false, if_true, true_and, false_and,
    decide_eq_true_eq, ite_true, ite_false]

/-- C6: the diagnostics flag does not interfere with the residual output:
with `post` set and unset, the residual buffer and the events snapshot are
identical; the only difference is the return value — `none` when unset, and
exactly the pair of electrode reaction rates when set. -/
theorem claim_C6 (env : Env) (t : ℚ) (sv svdot res : ℕ → ℚ) (sim : Simulation)
    (ex : Experiment) :
    (residuals env t sv svdot res { sim with flags_post := true } ex).res =
      (residuals env t sv svdot res { sim with flags_post := false } ex).res ∧
    (residuals env t sv svdot res { sim with flags_post := true } ex).events =
      (residuals env t sv svdot res { sim with flags_post := false } ex).events ∧
    (residuals env t sv svdot res { sim with flags_post := false } ex).ret = none ∧
    (residuals env t sv svdot res { sim with flags_post := true } ex).ret =
      some (sdotOf env sim.el sim.an sim.bat.temp (sv sim.an.ptr_phi_ed)
              (sv sim.el.ptr_phi_el) sv,
            sdotOf env sim.el sim.ca sim.bat.temp (sv sim.ca.ptr_phi_ed)
              (sv sim.el.ptr_phi_el) sv) := by
  unfold residuals
  dsimp only
  exact ⟨rfl, rfl, rfl, rfl⟩

/-- C8 (amended): the perturbation applied to component `j` in the
`bandwidth` probing loops is `max(1e-6, 1e-6*v[j])` — without an absolute
value on `v[j]` — and in particular it is always at least `1e-6` and never
zero. -/
theorem claim_C8_thm (v : ℕ → ℚ) (j : ℕ) :
    perturbed v j j - v j = pert (v j) ∧
    pert (v j) = max (1/1000000) (1/1000000 * v j) ∧
    (1/1000000 : ℚ) ≤ pert (v j) ∧ pert (v j) ≠ 0 := by
  refine ⟨?_, rfl, le_max_left _ _, ?_⟩
  · simp [perturbed]
  · exact ne_of_gt (lt_of_lt_of_le (by norm_num) (le_max_left _ _))

/-- C8 (counterexample): at a component equal to `-2`, the step actually
applied is `1e-6`, not the claimed `max(1e-6, 1e-6*|-2|) = 2e-6`. -/
theorem claim_C8_cex :
    perturbed (fun _ => -2) 0 0 - (-2 : ℚ) ≠
      max (1/1000000) (1/1000000 * |(-2 : ℚ)|) := by
  norm_num [perturbed, pert]

/-- C10: `bandwidth` always probes `residuals` at `t = 0` using the
simulation's stored initial vectors and the fixed internal experiment
`{mode:'current', units:'C', value: t ↦ 0}`; it takes no experiment
argument, so its result is a function of the simulation (and the external
environment) alone. -/
theorem claim_C10 (env : Env) (sim : Simulation) :
    bandwidth env sim =
      bandwidthProbe env sim 0 sim.sv0 sim.svdot0
        { mode := "current", units := "C", value := fun _ => 0 } := by
  unfold bandwidth bandwidthProbe probedJac
  rfl

/-- C2 (amended): in voltage mode, `residuals` overrides exactly two rows —
the cathode `phi_ed` row with `cellVoltage - appliedVoltage(t)` where
`cellVoltage` is the cathode electrode potential, and the electrolyte row
with `sdot_an*A_s_an*thick_an + sdot_ca*A_s_ca*thick_ca`, i.e. the net
charge balance WITHOUT the Faraday-constant factor that appears in the
current-mode rows; all other rows carry the unconditional values. -/
theorem claim_C2_thm (env : Env) (t : ℚ) (sv svdot res : ℕ → ℚ)
    (sim : Simulation) (ex : Experiment) (hmode : ex.mode = "voltage")
    (hne : sim.ca.ptr_phi_ed ≠ sim.el.ptr_phi_el) :
    (residuals env t sv svdot res sim ex).res sim.ca.ptr_phi_ed =
      sv sim.ca.ptr_phi_ed - ex.value t ∧
    (residuals env t sv svdot res sim ex).res sim.el.ptr_phi_el =
      sdotOf env sim.el sim.an sim.bat.temp (sv sim.an.ptr_phi_ed)
          (sv sim.el.ptr_phi_el) sv * sim.an.A_s * sim.an.thick +
        sdotOf env sim.el sim.ca sim.bat.temp (sv sim.ca.ptr_phi_ed)
          (sv sim.el.ptr_phi_el) sv * sim.ca.A_s * sim.ca.thick ∧
    ∀ i, i ≠ sim.ca.ptr_phi_ed → i ≠ sim.el.ptr_phi_el →
      (residuals env t sv svdot res sim ex).res i =
        resPreBC env sv svdot res sim i := by
  have hc1 : ¬(ex.mode = "current" ∧ ex.units = "A") := by rw [hmode]; simp
  have hc2 : ¬(ex.mode = "current" ∧ ex.units = "C") := by rw [hmode]; simp
  refine ⟨?_, ?_, ?_⟩
  · unfold residuals
    dsimp only
    rw [if_neg hc1, if_neg hc2, if_pos hmode, upd1_out _ _ _ _ hne, upd1_in]
  · unfold residuals
    dsimp only
    rw [if_neg hc1, if_neg hc2, if_pos hmode, upd1_in]
  · intro i hica hiel
    unfold residuals
    dsimp only
    rw [if_neg hc1, if_neg hc2, if_pos hmode, upd1_out _ _ _ _ hiel,
      upd1_out _ _ _ _ hica]

/-- C2 (witness): the amended voltage-mode row shapes evaluated on the
concrete fixture. -/
theorem claim_C2_witness :
    (residuals envT 0 svT zeroV zeroV simT exV).res simT.ca.ptr_phi_ed =
      svT simT.ca.ptr_phi_ed - exV.value 0 ∧
    (residuals envT 0 svT zeroV zeroV simT exV).res simT.el.ptr_phi_el =
      sdotOf envT simT.el simT.an simT.bat.temp (svT simT.an.ptr_phi_ed)
          (svT simT.el.ptr_phi_el) svT * simT.an.A_s * simT.an.thick +
        sdotOf envT simT.el simT.ca simT.bat.temp (svT simT.ca.ptr_phi_ed)
          (svT simT.el.ptr_phi_el) svT * simT.ca.A_s * simT.ca.thick ∧
    ∀ i, i ≠ simT.ca.ptr_phi_ed → i ≠ simT.el.ptr_phi_el →
      (residuals envT 0 svT zeroV zeroV simT exV).res i =
        resPreBC envT svT zeroV zeroV simT i :=
  claim_C2_thm envT 0 svT zeroV zeroV simT exV rfl (by decide)

/-- C2 (counterexample): on the concrete fixture with `F = 2`, the
voltage-mode electrolyte row equals `4`, while the claimed Faraday-scaled
net charge balance equals `8` — so the claim's row formula (reaction rate
scaled by area, thickness, AND Faraday's constant) does not match the
code. -/
theorem claim_C2_cex :
    (residuals envT 0 svT zeroV zeroV simT exV).res simT.el.ptr_phi_el ≠
      sdotOf envT simT.el simT.an simT.bat.temp (svT simT.an.ptr_phi_ed)
          (svT simT.el.ptr_phi_el) svT * simT.an.A_s * simT.an.thick * envT.c.F +
        sdotOf envT simT.el simT.ca simT.bat.temp (svT simT.ca.ptr_phi_ed)
          (svT simT.el.ptr_phi_el) svT * simT.ca.A_s * simT.ca.thick * envT.c.F := by
  have han : sdotOf envT simT.el simT.an simT.bat.temp (svT simT.an.ptr_phi_ed)
      (svT simT.el.ptr_phi_el) svT = 2 := by
    norm_num [sdotOf, surfFrac, envT, simT, anT, svT]
  have hcath : sdotOf envT simT.el simT.ca simT.bat.temp (svT simT.ca.ptr_phi_ed)
      (svT simT.el.ptr_phi_el) svT = 2 := by
    norm_num [sdotOf, surfFrac, envT, simT, anT, caT, svT]
  have hrow : (residuals envT 0 svT zeroV zeroV simT exV).res simT.el.ptr_phi_el =
      sdotOf envT simT.el simT.an simT.bat.temp (svT simT.an.ptr_phi_ed)
          (svT simT.el.ptr_phi_el) svT * simT.an.A_s * simT.an.thick +
        sdotOf envT simT.el simT.ca simT.bat.temp (svT simT.ca.ptr_phi_ed)
          (svT simT.el.ptr_phi_el) svT * simT.ca.A_s * simT.ca.thick := by
    unfold residuals
    dsimp only
    rw [if_neg (by decide), if_neg (by decide),
      if_pos (show exV.mode = "voltage" by rfl), upd1_in]
  rw [hrow, han, hcath]
  norm_num [simT, anT, caT, envT]

/-- C5: an experiment whose `(mode, units)` pair is none of the four
supported combinations falls through silently: every residual row equals the
pre-boundary-condition buffer, and in particular (for non-colliding index
maps) the cathode `phi_ed` row and the electrolyte `phi_el` row keep the
caller-supplied buffer values; no exception exists in the total model. -/
theorem claim_C5_thm (env : Env) (t : ℚ) (sv svdot res : ℕ → ℚ)
    (sim : Simulation) (ex : Experiment)
    (hmode : ¬((ex.mode = "current" ∧ ex.units = "A") ∨
      (ex.mode = "current" ∧ ex.units = "C") ∨
      ex.mode = "voltage" ∨ ex.mode = "power"))
    (hca : sim.ca.ptr_phi_ed ∉ writtenPre sim)
    (hel : sim.el.ptr_phi_el ∉ writtenPre sim) :
    (∀ i, (residuals env t sv svdot res sim ex).res i =
      resPreBC env sv svdot res sim i) ∧
    (residuals env t sv svdot res sim ex).res sim.ca.ptr_phi_ed =
      res sim.ca.ptr_phi_ed ∧
    (residuals env t sv svdot res sim ex).res sim.el.ptr_phi_el =
      res sim.el.ptr_phi_el := by
  have h1 : ¬(ex.mode = "current" ∧ ex.units = "A") := fun hc => hmode (Or.inl hc)
  have h2 : ¬(ex.mode = "current" ∧ ex.units = "C") := fun hc =>
    hmode (Or.inr (Or.inl hc))
  have h3 : ¬(ex.mode = "voltage") := fun hc => hmode (Or.inr (Or.inr (Or.inl hc)))
  have h4 : ¬(ex.mode = "power") := fun hc => hmode (Or.inr (Or.inr (Or.inr hc)))
  have key : ∀ i, (residuals env t sv svdot res sim ex).res i =
      resPreBC env sv svdot res sim i := by
    intro i
    unfold residuals
    dsimp only
    rw [if_neg h1, if_neg h2, if_neg h3, if_neg h4]
  exact ⟨key, (key _).trans (resPreBC_out _ _ _ _ _ _ hca),
    (key _).trans (resPreBC_out _ _ _ _ _ _ hel)⟩

/-- C5 (witness): the fall-through behaviour evaluated on the concrete
fixture with the unsupported pair `(current, mA)`. -/
theorem claim_C5_witness :
    (∀ i, (residuals envT 0 svT zeroV zeroV simT exU).res i =
      resPreBC envT svT zeroV zeroV simT i) ∧
    (residuals envT 0 svT zeroV zeroV simT exU).res simT.ca.ptr_phi_ed =
      zeroV simT.ca.ptr_phi_ed ∧
    (residuals envT 0 svT zeroV zeroV simT exU).res simT.el.ptr_phi_el =
      zeroV simT.el.ptr_phi_el :=
  claim_C5_thm envT 0 svT zeroV zeroV simT exU (by decide) (by decide) (by decide)

/-- C7: `residuals` mutates nothing but the residual buffer rows of the
index map and the events snapshot (the embedding is a pure function of its
inputs, so non-mutation of `sv`, `svdot` and the simulation parameters is
structural): rows outside the written index set keep the caller-supplied
buffer values, and the events snapshot — which has exactly the keys
`time_s, time_min, time_h, current_A, current_C, voltage_V, power_W` —
satisfies `time_min = time_s/60`, `time_h = time_s/3600`,
`current_C = current_A/bat.cap`, and `power_W = current_A * voltage_V`. -/
theorem claim_C7 (env : Env) (t : ℚ) (sv svdot res : ℕ → ℚ)
    (sim : Simulation) (ex : Experiment) (i : ℕ) (hi : i ∉ writtenIdx sim) :
    (residuals env t sv svdot res sim ex).res i = res i ∧
    (residuals env t sv svdot res sim ex).events.time_s = sim.t0 + t ∧
    (residuals env t sv svdot res sim ex).events.time_min =
      (residuals env t sv svdot res sim ex).events.time_s / 60 ∧
    (residuals env t sv svdot res sim ex).events.time_h =
      (residuals env t sv svdot res sim ex).events.time_s / 3600 ∧
    (residuals env t sv svdot res sim ex).events.current_C =
      (residuals env t sv svdot res sim ex).events.current_A / sim.bat.cap ∧
    (residuals env t sv svdot res sim ex).events.power_W =
      (residuals env t sv svdot res sim ex).events.current_A *
        (residuals env t sv svdot res sim ex).events.voltage_V :=
  ⟨residuals_frame env t sv svdot res sim ex i hi, rfl, rfl, rfl, rfl, rfl⟩

/-- C7 (witness): the frame property and events relations evaluated on the
concrete fixture at the untouched row 99. -/
theorem claim_C7_witness :
    (residuals envT 0 svT zeroV zeroV simT exV).res 99 = zeroV 99 ∧
    (residuals envT 0 svT zeroV zeroV simT exV).events.time_s = simT.t0 + 0 ∧
    (residuals envT 0 svT zeroV zeroV simT exV).events.time_min =
      (residuals envT 0 svT zeroV zeroV simT exV).events.time_s / 60 ∧
    (residuals envT 0 svT zeroV zeroV simT exV).events.time_h =
      (residuals envT 0 svT zeroV zeroV simT exV).events.time_s / 3600 ∧
    (residuals envT 0 svT zeroV zeroV simT exV).events.current_C =
      (residuals envT 0 svT zeroV zeroV simT exV).events.current_A / simT.bat.cap ∧
    (residuals envT 0 svT zeroV zeroV simT exV).events.power_W =
      (residuals envT 0 svT zeroV zeroV simT exV).events.current_A *
        (residuals envT 0 svT zeroV zeroV simT exV).events.voltage_V :=
  claim_C7 envT 0 svT zeroV zeroV simT exV 99 (by decide)

/-! ## Bandwidth characterization lemmas (for C9) -/

lemma sorted_getLast_spec : ∀ (l : List ℕ) (m : ℕ),
    List.Pairwise (· < ·) l → l.getLast? = some m → m ∈ l ∧ ∀ x ∈ l, x ≤ m := by
  intro l
  induction l with
  | nil => intro m _ h; simp at h
  | cons a t ih =>
    intro m hp hl
    cases t with
    | nil =>
      have ham : a = m := by simpa using hl
      subst ham
      refine ⟨List.mem_singleton_self a, ?_⟩
      intro x hx
      have : x = a := by simpa using hx
      omega
    | cons b t2 =>
      rw [List.getLast?_cons_cons] at hl
      obtain ⟨hab, hp2⟩ := List.pairwise_cons.mp hp
      obtain ⟨hm_mem, hm_max⟩ := ih m hp2 hl
      refine ⟨List.mem_cons_of_mem a hm_mem, ?_⟩
      intro x hx
      rcases List.mem_cons.mp hx with hxa | hx2
      · have h1 := hm_max b (List.mem_cons_self b t2)
        have h2 := hab b (List.mem_cons_self b t2)
        omega
      · exact hm_max x hx2

lemma foldl_max_of_step (step : ℕ → ℕ → ℕ) (g : ℕ → ℕ)
    (hstep : ∀ acc i, step acc i = max acc (g i)) :
    ∀ N, (List.range N).foldl step 0 = (Finset.range N).sup g := by
  intro N
  induction N with
  | zero => simp
  | succ n ih =>
    rw [List.range_succ, List.foldl_append]
    simp only [List.foldl_cons, List.foldl_nil]
    rw [hstep, ih, Finset.range_succ, Finset.sup_insert, sup_eq_max, Nat.max_comm]

lemma lb_row (jac : ℕ → ℕ → ℚ) (i acc : ℕ) :
    (match (List.range i).filter (fun j => decide (0 < |jac i j|)) with
      | [] => acc
      | j0 :: _ => if i - j0 > acc then i - j0 else acc) =
    max acc (((Finset.range i).filter (fun j => jac i j ≠ 0)).sup (fun j => i - j)) := by
  have hmem : ∀ j, j ∈ (List.range i).filter (fun j => decide (0 < |jac i j|)) ↔
      j ∈ (Finset.range i).filter (fun j => jac i j ≠ 0) := by
    intro j
    simp [List.mem_filter, List.mem_range, Finset.mem_filter, Finset.mem_range,
      abs_pos, and_comm]
  cases hfil : (List.range i).filter (fun j => decide (0 < |jac i j|)) with
  | nil =>
    have hempty : (Finset.range i).filter (fun j => jac i j ≠ 0) = ∅ := by
      ext j
      rw [← hmem j, hfil]
      simp
    rw [hempty]
    simp
  | cons j0 rest =>
    have hj0 : j0 ∈ (Finset.range i).filter (fun j => jac i j ≠ 0) := by
      rw [← hmem j0, hfil]
      exact List.mem_cons_self _ _
    have hpw : List.Pairwise (· < ·) (j0 :: rest) := by
      rw [← hfil]
      exact (List.pairwise_lt_range i).filter _
    have hmin : ∀ j ∈ (Finset.range i).filter (fun j => jac i j ≠ 0), j0 ≤ j := by
      intro j hj
      rw [← hmem j, hfil] at hj
      rcases List.mem_cons.mp hj with hja | hjr
      · omega
      · exact le_of_lt ((List.pairwise_cons.mp hpw).1 j hjr)
    have hsup : ((Finset.range i).filter (fun j => jac i j ≠ 0)).sup (fun j => i - j) =
        i - j0 := by
      apply le_antisymm
      · exact Finset.sup_le fun j hj => Nat.sub_le_sub_left (hmin j hj) i
      · exact Finset.le_sup (f := fun j => i - j) hj0
    rw [hsup]
    dsimp only
    rw [sup_eq_max]
    rcases Nat.lt_or_ge acc (i - j0) with hlt | hge
    · rw [if_pos hlt, Nat.max_eq_right (le_of_lt hlt)]
    · rw [if_neg (by omega), Nat.max_eq_left hge]

lemma ub_row (jac : ℕ → ℕ → ℚ) (N i acc : ℕ) :
    (match ((List.range N).filter (fun j => decide (i ≤ j ∧ 0 < |jac i j|))).getLast? with
      | none => acc
      | some jl => if jl - i > acc then jl - i else acc) =
    max acc (((Finset.range N).filter (fun j => i ≤ j ∧ jac i j ≠ 0)).sup
      (fun j => j - i)) := by
  have hmem : ∀ j, j ∈ (List.range N).filter (fun j => decide (i ≤ j ∧ 0 < |jac i j|)) ↔
      j ∈ (Finset.range N).filter (fun j => i ≤ j ∧ jac i j ≠ 0) := by
    intro j
    simp [List.mem_filter, List.mem_range, Finset.mem_filter, Finset.mem_range, abs_pos]
  cases hfil : ((List.range N).filter (fun j => decide (i ≤ j ∧ 0 < |jac i j|))).getLast? with
  | none =>
    have hnil : (List.range N).filter (fun j => decide (i ≤ j ∧ 0 < |jac i j|)) = [] :=
      List.getLast?_eq_none_iff.mp hfil
    have hempty : (Finset.range N).filter (fun j => i ≤ j ∧ jac i j ≠ 0) = ∅ := by
      ext j
      rw [← hmem j, hnil]
      simp
    rw [hempty]
    simp
  | some jl =>
    have hpw : List.Pairwise (· < ·)
        ((List.range N).filter (fun j => decide (i ≤ j ∧ 0 < |jac i j|))) :=
      (List.pairwise_lt_range N).filter _
    obtain ⟨hmem_l, hmax⟩ := sorted_getLast_spec _ jl hpw hfil
    have hjl : jl ∈ (Finset.range N).filter (fun j => i ≤ j ∧ jac i j ≠ 0) :=
      (hmem jl).mp hmem_l
    have hsup : ((Finset.range N).filter (fun j => i ≤ j ∧ jac i j ≠ 0)).sup
        (fun j => j - i) = jl - i := by
      apply le_antisymm
      · exact Finset.sup_le fun j hj =>
          Nat.sub_le_sub_right (hmax j ((hmem j).mpr hj)) i
      · exact Finset.le_sup (f := fun j => j - i) hjl
    rw [hsup]
    dsimp only
    rw [sup_eq_max]
    rcases Nat.lt_or_ge acc (jl - i) with hlt | hge
    · rw [if_pos hlt, Nat.max_eq_right (le_of_lt hlt)]
    · rw [if_neg (by omega), Nat.max_eq_left hge]

lemma lbandOf_eq_sup (jac : ℕ → ℕ → ℚ) (N : ℕ) :
    lbandOf jac N = (Finset.range N).sup (fun i =>
      ((Finset.range i).filter (fun j => jac i j ≠ 0)).sup (fun j => i - j)) := by
  unfold lbandOf
  exact foldl_max_of_step _ _ (fun acc i => lb_row jac i acc) N

lemma ubandOf_eq_sup (jac : ℕ → ℕ → ℚ) (N : ℕ) :
    ubandOf jac N = (Finset.range N).sup (fun i =>
      ((Finset.range N).filter (fun j => i ≤ j ∧ jac i j ≠ 0)).sup (fun j => j - i)) := by
  unfold ubandOf
  exact foldl_max_of_step _ _ (fun acc i => ub_row jac N i acc) N

lemma j_patOf_spec (jac : ℕ → ℕ → ℚ) (i j : ℕ) :
    (j_patOf jac i j = 1 ↔ jac i j ≠ 0) ∧ (j_patOf jac i j = 0 ↔ jac i j = 0) := by
  unfold j_patOf
  by_cases h : jac i j = 0 <;> simp [h]

/-- C9: `bandwidth` returns `lband` equal to the maximum over all rows `i`
of the distance to the furthest nonzero probed-Jacobian entry at a column
strictly below `i` (0 when no row has one), `uband` equal to the maximum
over all rows of the distance to the furthest nonzero entry at a column
`≥ i`, and a pattern matrix whose `(i, j)` entry is 1 exactly when the
probed Jacobian entry is nonzero and 0 otherwise. -/
theorem claim_C9 (env : Env) (sim : Simulation) :
    (bandwidth env sim).1 = (Finset.range sim.N).sup (fun i =>
      ((Finset.range i).filter (fun j => probedJac env sim i j ≠ 0)).sup
        (fun j => i - j)) ∧
    (bandwidth env sim).2.1 = (Finset.range sim.N).sup (fun i =>
      ((Finset.range sim.N).filter (fun j => i ≤ j ∧ probedJac env sim i j ≠ 0)).sup
        (fun j => j - i)) ∧
    ∀ i j, ((bandwidth env sim).2.2 i j = 1 ↔ probedJac env sim i j ≠ 0) ∧
      ((bandwidth env sim).2.2 i j = 0 ↔ probedJac env sim i j = 0) :=
  ⟨lbandOf_eq_sup (probedJac env sim) sim.N,
   ubandOf_eq_sup (probedJac env sim) sim.N,
   fun i j => j_patOf_spec (probedJac env sim) i j⟩

end BMLite
